import Mathlib

/-!
Verification of the sparse weighted-graph container and the
single-source shortest-path (Dijkstra) engine of this repository.

The development shallowly embeds:
* `src/data_structures/dijkstra.rs` in namespace `Dijkstra`
  (concrete adjacency-list `sssp`, the `AdjacencyGraph`/`AdjacencyEdge`
  capability, and the capability-based `sssp_trait`);
* `src/graphs/dijkstra.rs` in namespace `Graphs`
  (the capability-based `sssp` of the graphs module);
* `src/data_structures/graph.rs` in namespace `GraphDS`
  (the `FreeMap` sparse index store and the `Graph` container).

Rust `usize`/`u32` weights are embedded as `Nat` (all values in the
repository's examples are small and non-negative; Dijkstra's precondition
demands non-negative weights).  Rust `std` collections are embedded as
lists: a `BTreeSet` as a list sorted and deduplicated by the element
ordering, a `HashMap` as an association list (iteration order of a
`HashMap`/`HashSet` is unspecified in Rust; the embedding iterates in
list order, which is one admissible order, and notes where this matters).
`assert!` failures and out-of-bounds indexing are embedded as explicit
panic results; the unbounded `while` loop is embedded with a fuel
parameter, `outOfFuel` being distinct from normal termination.
-/

namespace Dijkstra

/-- `Edge<W>` of `data_structures/dijkstra.rs`: weight and destination. -/
structure Edge where
  weight : Nat
  dst : Nat
deriving DecidableEq

/-- `type Graph<W> = Vec<Vec<Edge<W>>>`: adjacency list of a directed
weighted graph. -/
abbrev Graph := List (List Edge)

/-- `VetInSet<W>`: a frontier entry (tentative distance, node handle). -/
structure VetInSet where
  dist : Nat
  vet : Nat
deriving DecidableEq

/-- Rust `Ord::cmp` on integers: `lt` / `eq` / `gt` by value. -/
def natCompare (a b : Nat) : Ordering :=
  if a < b then .lt else if a = b then .eq else .gt

/-- The `Ord` implementation of `VetInSet` in the source: it compares
`self.dist.cmp(&rhs.dist)` only — the node handle does not participate. -/
def vetCmp (a b : VetInSet) : Ordering :=
  natCompare a.dist b.dist

/-- `BTreeSet::insert` on a frontier ordered by `vetCmp`: the set is a
list sorted strictly by `vetCmp`; an element comparing `eq` to a present
element is rejected (returns `false`) and the set is unchanged. -/
def setInsert (x : VetInSet) : List VetInSet → List VetInSet × Bool
  | [] => ([x], true)
  | y :: ys =>
    match vetCmp x y with
    | .lt => (x :: y :: ys, true)
    | .eq => (y :: ys, false)
    | .gt =>
      let p := setInsert x ys
      (y :: p.1, p.2)

/-- `BTreeSet::remove` on the frontier: removes the element comparing
`eq` to the key, if any, and reports whether one was removed. -/
def setRemove (x : VetInSet) : List VetInSet → List VetInSet × Bool
  | [] => ([], false)
  | y :: ys =>
    match vetCmp x y with
    | .lt => (y :: ys, false)
    | .eq => (ys, true)
    | .gt =>
      let p := setRemove x ys
      (y :: p.1, p.2)

/-- Result of one engine invocation: normal termination with the distance
table, a panic (failed `assert!` or out-of-bounds index), or fuel
exhaustion of the embedded loop. -/
inductive SsspResult where
  | done : List (Option Nat) → SsspResult
  | panicked : SsspResult
  | outOfFuel : SsspResult
deriving DecidableEq

/-- The inner `for next in graph[u].iter()` loop of `sssp`: relax every
outgoing edge of the extracted node.  `dist[v]` out of bounds and a
failed `assert!(set.remove(..))` are panics (`none`). -/
def relaxEdges (udist : Nat) : List Edge → List (Option Nat) → List VetInSet →
    Option (List (Option Nat) × List VetInSet)
  | [], dist, set => some (dist, set)
  | e :: rest, dist, set =>
    let v := e.dst
    let alt := udist + e.weight
    match dist[v]? with
    | none => none
    | some none =>
      relaxEdges udist rest (dist.set v (some alt)) (setInsert ⟨alt, v⟩ set).1
    | some (some vdist) =>
      if alt < vdist then
        match setRemove ⟨vdist, v⟩ set with
        | (_, false) => none
        | (set1, true) =>
          relaxEdges udist rest (dist.set v (some alt)) (setInsert ⟨alt, v⟩ set1).1
      else
        relaxEdges udist rest dist set

/-- The `while let Some(min) = set.iter().copied().next()` loop of `sssp`:
extract the minimum frontier entry (head of the sorted list), remove it
(`assert!`), and relax its outgoing edges.  `graph[u]` out of bounds is a
panic. -/
def ssspLoop (graph : Graph) : Nat → List (Option Nat) → List VetInSet → SsspResult
  | 0, _, _ => .outOfFuel
  | fuel + 1, dist, set =>
    match set with
    | [] => .done dist
    | min :: _ =>
      match setRemove min set with
      | (_, false) => .panicked
      | (set1, true) =>
        match graph[min.vet]? with
        | none => .panicked
        | some adj =>
          match relaxEdges min.dist adj dist set1 with
          | none => .panicked
          | some (dist1, set2) => ssspLoop graph fuel dist1 set2

/-- `sssp` of `data_structures/dijkstra.rs`: single-source shortest paths
over the adjacency-list graph.  `dist[source] = Some(W::default())` with
`source` out of bounds is a panic; `W::default()` for the `Nat` weight is
`0`. -/
def sssp (fuel : Nat) (graph : Graph) (source : Nat) : SsspResult :=
  let n := graph.length
  if source < n then
    ssspLoop graph fuel ((List.replicate n (none : Option Nat)).set source (some 0))
      (setInsert ⟨0, source⟩ []).1
  else
    .panicked

/-- The `AdjacencyEdge` + `AdjacencyGraph` capability of
`data_structures/dijkstra.rs`, bundled as explicit operations: target and
weight of an edge, per-node outgoing edges, node count.  `adjacencies`
returns `none` when the provider would panic (out-of-range index). -/
structure AdjacencyOps (G : Type) (E : Type) where
  target : E → Nat
  weight : E → Nat
  adjacencies : G → Nat → Option (List E)
  node_count : G → Nat

/-- The `impl AdjacencyGraph for Graph<W>` of the source: `adjacencies`
is `self[u].iter()` (panics out of range), `node_count` is `self.len()`. -/
def listAdjOps : AdjacencyOps Graph Edge where
  target := Edge.dst
  weight := Edge.weight
  adjacencies := fun g u => g[u]?
  node_count := List.length

/-- Inner relaxation loop of `sssp_trait`, over the capability. -/
def traitRelax (ops : AdjacencyOps G E) (udist : Nat) :
    List E → List (Option Nat) → List VetInSet →
    Option (List (Option Nat) × List VetInSet)
  | [], dist, set => some (dist, set)
  | e :: rest, dist, set =>
    let v := ops.target e
    let alt := udist + ops.weight e
    match dist[v]? with
    | none => none
    | some none =>
      traitRelax ops udist rest (dist.set v (some alt)) (setInsert ⟨alt, v⟩ set).1
    | some (some vdist) =>
      if alt < vdist then
        match setRemove ⟨vdist, v⟩ set with
        | (_, false) => none
        | (set1, true) =>
          traitRelax ops udist rest (dist.set v (some alt)) (setInsert ⟨alt, v⟩ set1).1
      else
        traitRelax ops udist rest dist set

/-- Main loop of `sssp_trait`, over the capability. -/
def traitLoop (ops : AdjacencyOps G E) (graph : G) :
    Nat → List (Option Nat) → List VetInSet → SsspResult
  | 0, _, _ => .outOfFuel
  | fuel + 1, dist, set =>
    match set with
    | [] => .done dist
    | min :: _ =>
      match setRemove min set with
      | (_, false) => .panicked
      | (set1, true) =>
        match ops.adjacencies graph min.vet with
        | none => .panicked
        | some adj =>
          match traitRelax ops min.dist adj dist set1 with
          | none => .panicked
          | some (dist1, set2) => traitLoop ops graph fuel dist1 set2

/-- `sssp_trait` of `data_structures/dijkstra.rs`: the same algorithm as
`sssp`, written against the `AdjacencyGraph` capability only (its local
`VetInSet` and frontier are identical to those of `sssp`). -/
def ssspTrait (ops : AdjacencyOps G E) (fuel : Nat) (graph : G) (source : Nat) :
    SsspResult :=
  let n := ops.node_count graph
  if source < n then
    traitLoop ops graph fuel ((List.replicate n (none : Option Nat)).set source (some 0))
      (setInsert ⟨0, source⟩ []).1
  else
    .panicked

end Dijkstra

namespace Graphs

open Dijkstra (VetInSet setInsert setRemove SsspResult AdjacencyOps)

/-- Inner relaxation loop of the graphs module's `sssp`
(`graphs/dijkstra.rs`); its local `VetInSet` and frontier ordering are
identical to those of `data_structures/dijkstra.rs`. -/
def relaxG (ops : AdjacencyOps G E) (udist : Nat) :
    List E → List (Option Nat) → List VetInSet →
    Option (List (Option Nat) × List VetInSet)
  | [], dist, set => some (dist, set)
  | e :: rest, dist, set =>
    let v := ops.target e
    let alt := udist + ops.weight e
    match dist[v]? with
    | none => none
    | some none =>
      relaxG ops udist rest (dist.set v (some alt)) (setInsert ⟨alt, v⟩ set).1
    | some (some vdist) =>
      if alt < vdist then
        match setRemove ⟨vdist, v⟩ set with
        | (_, false) => none
        | (set1, true) =>
          relaxG ops udist rest (dist.set v (some alt)) (setInsert ⟨alt, v⟩ set1).1
      else
        relaxG ops udist rest dist set

/-- Main loop of the graphs module's `sssp`. -/
def loopG (ops : AdjacencyOps G E) (graph : G) :
    Nat → List (Option Nat) → List VetInSet → SsspResult
  | 0, _, _ => .outOfFuel
  | fuel + 1, dist, set =>
    match set with
    | [] => .done dist
    | min :: _ =>
      match setRemove min set with
      | (_, false) => .panicked
      | (set1, true) =>
        match ops.adjacencies graph min.vet with
        | none => .panicked
        | some adj =>
          match relaxG ops min.dist adj dist set1 with
          | none => .panicked
          | some (dist1, set2) => loopG ops graph fuel dist1 set2

/-- `sssp` of `graphs/dijkstra.rs`: Dijkstra over the `AdjacencyGraph`
capability (imported from the data-structures module). -/
def sssp (ops : AdjacencyOps G E) (fuel : Nat) (graph : G) (source : Nat) :
    SsspResult :=
  let n := ops.node_count graph
  if source < n then
    loopG ops graph fuel ((List.replicate n (none : Option Nat)).set source (some 0))
      (setInsert ⟨0, source⟩ []).1
  else
    .panicked

end Graphs

namespace GraphDS

/-- `Node<N>` of `data_structures/graph.rs`: node payload. -/
structure Node (N : Type) where
  weight : N
deriving DecidableEq

/-- `Edge<E>` of `data_structures/graph.rs`: edge payload plus the handles
of its head and tail nodes. -/
structure Edge (E : Type) where
  weight : E
  head : Nat
  tail : Nat
deriving DecidableEq

/-- `HashMap::insert`: overwrite the entry of an existing key in place,
otherwise append a new entry.  The map is an association list with unique
keys; its list order models one admissible (unspecified) iteration order
of the hash map. -/
def mapInsert (k : Nat) (d : Data) : List (Nat × Data) → List (Nat × Data)
  | [] => [(k, d)]
  | (k1, d1) :: rest => if k1 = k then (k, d) :: rest else (k1, d1) :: mapInsert k d rest

/-- `HashMap::get` / lookup by key. -/
def mapLookup (k : Nat) : List (Nat × Data) → Option Data
  | [] => none
  | (k1, d) :: rest => if k1 = k then some d else mapLookup k rest

/-- `HashMap::remove`: drop the entry of the key, if present. -/
def mapRemove (k : Nat) : List (Nat × Data) → List (Nat × Data)
  | [] => []
  | (k1, d) :: rest => if k1 = k then rest else (k1, d) :: mapRemove k rest

/-- `FreeMap<Data>` of `data_structures/graph.rs`: a `HashMap` from handles
to payloads plus a `HashSet` of freed handles.  The free set is a list
without duplicates; its head models the element yielded first by the hash
set's (unspecified) iteration order, and `HashSet::insert` appends. -/
structure FreeMap (Data : Type) where
  map : List (Nat × Data)
  free : List Nat
deriving DecidableEq

/-- `FreeMap::insert`: `index` starts as `map.len()`; if the free set
yields an element, that element becomes the index and is removed from the
free set; then `map.insert(index, data)`. -/
def FreeMap.insert (fm : FreeMap Data) (data : Data) : FreeMap Data × Nat :=
  match fm.free with
  | [] => (⟨mapInsert fm.map.length data fm.map, []⟩, fm.map.length)
  | f :: rest => (⟨mapInsert f data fm.map, rest⟩, f)

/-- `FreeMap::contains_key`. -/
def FreeMap.contains_key (fm : FreeMap Data) (index : Nat) : Bool :=
  (mapLookup index fm.map).isSome

/-- `FreeMap::get`. -/
def FreeMap.get (fm : FreeMap Data) (index : Nat) : Option Data :=
  mapLookup index fm.map

/-- `FreeMap::len`: number of live entries (list length, keys unique). -/
def FreeMap.len (fm : FreeMap Data) : Nat :=
  fm.map.length

/-- `FreeMap::remove`: if the key is live, remove its entry, add the key
to the free set (`HashSet::insert`, modelled as append) and return the
payload; otherwise return `None` and leave the store unchanged. -/
def FreeMap.remove (fm : FreeMap Data) (index : Nat) : FreeMap Data × Option Data :=
  match mapLookup index fm.map with
  | some data => (⟨mapRemove index fm.map, fm.free ++ [index]⟩, some data)
  | none => (fm, none)

/-- `Graph<N, E, Ty>` of `data_structures/graph.rs`: two sparse index
stores (nodes and edges).  The phantom `Ty : EdgeType` parameter is
embedded as the boolean `directed` (`Ty::is_directed()`), fixed at
construction. -/
structure Graph (N E : Type) where
  nodes : FreeMap (Node N)
  edges : FreeMap (Edge E)
  directed : Bool
deriving DecidableEq

/-- `Graph::new`. -/
def Graph.new (directed : Bool) : Graph N E :=
  ⟨⟨[], []⟩, ⟨[], []⟩, directed⟩

/-- `Graph::is_directed`. -/
def Graph.is_directed (g : Graph N E) : Bool :=
  g.directed

/-- `Graph::add_node`: delegate to the node store, return the new state
and the assigned handle. -/
def Graph.add_node (g : Graph N E) (weight : N) : Graph N E × Nat :=
  let p := g.nodes.insert ⟨weight⟩
  ({ g with nodes := p.1 }, p.2)

/-- `Graph::remove_node`: if the handle is live, remove the node and then
`self.edges.map.retain(|_, edge| edge.head != index && edge.tail != index)`
— the retain mutates the edge map directly, leaving the edge store's free
set untouched — and return the node's weight; otherwise return `None`. -/
def Graph.remove_node (g : Graph N E) (index : Nat) : Graph N E × Option N :=
  match g.nodes.remove index with
  | (nodes1, some node) =>
    ({ g with
        nodes := nodes1,
        edges := ⟨g.edges.map.filter
          (fun p => p.2.head != index && p.2.tail != index), g.edges.free⟩ },
      some node.weight)
  | (_, none) => (g, none)

/-- `Graph::add_edge`: `None` when `head` or `tail` is not a live node
handle (no state change), otherwise insert the edge into the edge store
and return its handle. -/
def Graph.add_edge (g : Graph N E) (weight : E) (head tail : Nat) :
    Graph N E × Option Nat :=
  if !(g.nodes.contains_key head) || !(g.nodes.contains_key tail) then
    (g, none)
  else
    let p := g.edges.insert ⟨weight, head, tail⟩
    ({ g with edges := p.1 }, some p.2)

/-- `Graph::remove_edge` (the removed payload is dropped). -/
def Graph.remove_edge (g : Graph N E) (index : Nat) : Graph N E :=
  { g with edges := (g.edges.remove index).1 }

/-- The scan of `Graph::find_n_edges`: iterate the edge map (in its
modelled iteration order), push the index of every edge matching
`[edge.head, edge.tail] == [head, tail]` or — when the graph `is_directed`
— `[edge.head, edge.tail] == [tail, head]`, and break once `n != 0` and
`n` matches were collected. -/
def collectNEdges (directed : Bool) (n head tail : Nat) :
    List (Nat × Edge E) → List Nat → List Nat
  | [], result => result
  | (index, e) :: rest, result =>
    let result1 :=
      if (e.head == head && e.tail == tail)
          || (directed && e.head == tail && e.tail == head) then
        result ++ [index]
      else
        result
    if n ≠ 0 ∧ result1.length = n then result1
    else collectNEdges directed n head tail rest result1

/-- `Graph::find_n_edges`: scan, then `result.sort()` (ascending). -/
def Graph.find_n_edges (g : Graph N E) (n head tail : Nat) : List Nat :=
  List.insertionSort (· ≤ ·) (collectNEdges g.directed n head tail g.edges.map [])

/-- `Graph::find_edges`: all matches (`n == 0` means unbounded). -/
def Graph.find_edges (g : Graph N E) (head tail : Nat) : List Nat :=
  g.find_n_edges 0 head tail

/-- `Graph::find_edge`: first match or `None`. -/
def Graph.find_edge (g : Graph N E) (head tail : Nat) : Option Nat :=
  match g.find_n_edges 1 head tail with
  | [] => none
  | e :: _ => some e

/-- `Graph::node_count`. -/
def Graph.node_count (g : Graph N E) : Nat :=
  g.nodes.len

/-- `Graph::edge_count`. -/
def Graph.edge_count (g : Graph N E) : Nat :=
  g.edges.len

end GraphDS

namespace Dijkstra

/-- `HasPathOfCost g u v c`: the adjacency-list graph `g` has a directed
path from `u` to `v` whose edge weights sum to `c`. -/
inductive HasPathOfCost (g : Graph) : Nat → Nat → Nat → Prop where
  | nil (u : Nat) : HasPathOfCost g u u 0
  | cons {u w c : Nat} (e : Edge) :
      e ∈ (g[u]?.getD []) → HasPathOfCost g e.dst w c →
      HasPathOfCost g u w (e.weight + c)

/-- The six-node example graph of the source's doc test:
edges 0→1(2), 0→2(1), 2→1(3), 2→3(20), 1→3(8), 3→4(3); node 5 isolated. -/
def exampleGraph : Graph :=
  [[⟨2, 1⟩, ⟨1, 2⟩], [⟨8, 3⟩], [⟨3, 1⟩, ⟨20, 3⟩], [⟨3, 4⟩], [], []]

/-- A graph with an equal-weight tie: node 0 has two weight-5 edges into
the siblings 1 and 2 and two weight-1 edges into the siblings 3 and 4,
and node 4 has a weight-2 edge into node 2 (so the shortest path to
node 2 is 0→4→2 of cost 3). -/
def tieGraph : Graph :=
  [[⟨5, 1⟩, ⟨5, 2⟩, ⟨1, 3⟩, ⟨1, 4⟩], [], [], [], [⟨2, 2⟩]]

end Dijkstra

namespace GraphDS

/-- A directed container with two live nodes 0 and 1 and no edges. -/
def twoNodes : Graph Nat Nat :=
  ((((Graph.new true).add_node 0).1).add_node 0).1

/-- `twoNodes` plus edges 0 ↦ (10, 0→1), 1 ↦ (11, 0→1), 2 ↦ (5, 1→1). -/
def cascade3 : Graph Nat Nat :=
  ((((twoNodes.add_edge 10 0 1).1.add_edge 11 0 1).1).add_edge 5 1 1).1

/-- `cascade3` after `remove_node 0`: the cascading deletion removed
edges 0 and 1 through `retain`, so the edge store's map holds only
edge 2 while its free set is still empty. -/
def cascaded : Graph Nat Nat :=
  (cascade3.remove_node 0).1

/-- `cascaded` after one more `add_edge` (assigned handle 1). -/
def cascaded1 : Graph Nat Nat :=
  (cascaded.add_edge 6 1 1).1

/-- `twoNodes` plus edges 0 ↦ (10, 0→1), 1 ↦ (5, 1→1), then
`remove_node 0`: the edge store's map holds only edge 1 (live) while
handle 0 is free but unrecorded in the free set. -/
def cascadedSmall : Graph Nat Nat :=
  (((twoNodes.add_edge 10 0 1).1.add_edge 5 1 1).1.remove_node 0).1

/-- A directed container with nodes 0, 1 and edges 0 ↦ (1, 0→1) and
1 ↦ (2, 1→0). -/
def directedPair : Graph Nat Nat :=
  ((twoNodes.add_edge 1 0 1).1.add_edge 2 1 0).1

/-- An undirected container with nodes 0, 1 and edges 0 ↦ (1, 0→1) and
1 ↦ (2, 1→0). -/
def undirectedPair : Graph Nat Nat :=
  (((((Graph.new false).add_node 0).1.add_node 0).1.add_edge 1 0 1).1.add_edge 2 1 0).1

/-- `twoNodes` plus three parallel edges 0→1 (handles 0, 1, 2), then
`remove_edge 0` and a fourth parallel edge: handle 0 is reused, and the
re-inserted entry sits at the end of the map's iteration order, which is
now 1, 2, 0. -/
def parallel4 : Graph Nat Nat :=
  (((((twoNodes.add_edge 1 0 1).1.add_edge 2 0 1).1.add_edge 3 0 1).1.remove_edge
      0).add_edge 4 0 1).1

end GraphDS

namespace GraphDS

lemma mapLookup_insert_self (k : Nat) (d : Data) (m : List (Nat × Data)) :
    mapLookup k (mapInsert k d m) = some d := by
  induction m with
  | nil => simp [mapInsert, mapLookup]
  | cons p rest ih =>
    by_cases hk : p.1 = k
    · simp [mapInsert, hk, mapLookup]
    · simpa [mapInsert, hk, mapLookup] using ih

lemma mapLookup_mem {k : Nat} {d : Data} {m : List (Nat × Data)}
    (hm : mapLookup k m = some d) : (k, d) ∈ m := by
  induction m with
  | nil => simp [mapLookup] at hm
  | cons p rest ih =>
    obtain ⟨k1, d1⟩ := p
    by_cases hk : k1 = k
    · subst hk
      simp [mapLookup] at hm
      simp [hm]
    · simp [mapLookup, hk] at hm
      exact List.mem_cons_of_mem _ (ih hm)

lemma freeMap_insert_map (fm : FreeMap Data) (d : Data) :
    ((fm.insert d).1).map = mapInsert (fm.insert d).2 d fm.map := by
  cases hf : fm.free <;> simp [FreeMap.insert, hf]

/-- The handles of the entries of `l` matching the test of
`find_n_edges` for the query (head, tail). -/
def matchKeys (directed : Bool) (head tail : Nat) (l : List (Nat × Edge E)) : List Nat :=
  (l.filter fun p => (p.2.head == head && p.2.tail == tail)
      || (directed && p.2.head == tail && p.2.tail == head)).map Prod.fst

lemma collectNEdges_cons_of_match {E : Type} {directed : Bool} {n head tail i : Nat}
    {e : Edge E} {rest : List (Nat × Edge E)} {acc : List Nat}
    (hm : ((e.head == head && e.tail == tail)
      || (directed && e.head == tail && e.tail == head)) = true) :
    collectNEdges directed n head tail ((i, e) :: rest) acc =
      if n ≠ 0 ∧ (acc ++ [i]).length = n then acc ++ [i]
      else collectNEdges directed n head tail rest (acc ++ [i]) := by
  simp [collectNEdges, hm]

lemma collectNEdges_cons_of_not_match {E : Type} {directed : Bool} {n head tail i : Nat}
    {e : Edge E} {rest : List (Nat × Edge E)} {acc : List Nat}
    (hm : ((e.head == head && e.tail == tail)
      || (directed && e.head == tail && e.tail == head)) = false) :
    collectNEdges directed n head tail ((i, e) :: rest) acc =
      if n ≠ 0 ∧ acc.length = n then acc
      else collectNEdges directed n head tail rest acc := by
  simp [collectNEdges, hm]

lemma matchKeys_cons_of_match {E : Type} {directed : Bool} {head tail i : Nat}
    {e : Edge E} {rest : List (Nat × Edge E)}
    (hm : ((e.head == head && e.tail == tail)
      || (directed && e.head == tail && e.tail == head)) = true) :
    matchKeys directed head tail ((i, e) :: rest) = i :: matchKeys directed head tail rest := by
  simp [matchKeys, List.filter_cons, hm]

lemma matchKeys_cons_of_not_match {E : Type} {directed : Bool} {head tail i : Nat}
    {e : Edge E} {rest : List (Nat × Edge E)}
    (hm : ((e.head == head && e.tail == tail)
      || (directed && e.head == tail && e.tail == head)) = false) :
    matchKeys directed head tail ((i, e) :: rest) = matchKeys directed head tail rest := by
  simp [matchKeys, List.filter_cons, hm]

lemma collectNEdges_zero (directed : Bool) (head tail : Nat) :
    ∀ (l : List (Nat × Edge E)) (acc : List Nat),
      collectNEdges directed 0 head tail l acc = acc ++ matchKeys directed head tail l := by
  intro l
  induction l with
  | nil => intro acc; simp [collectNEdges, matchKeys]
  | cons p rest ih =>
    intro acc
    obtain ⟨i, e⟩ := p
    by_cases hm : ((e.head == head && e.tail == tail)
        || (directed && e.head == tail && e.tail == head)) = true
    · rw [collectNEdges_cons_of_match hm, if_neg (by simp), ih,
        matchKeys_cons_of_match hm]
      simp
    · rw [Bool.not_eq_true] at hm
      rw [collectNEdges_cons_of_not_match hm, if_neg (by simp), ih,
        matchKeys_cons_of_not_match hm]

lemma collectNEdges_mem (directed : Bool) (n head tail : Nat) :
    ∀ (l : List (Nat × Edge E)) (acc : List Nat) (x : Nat),
      x ∈ collectNEdges directed n head tail l acc →
      x ∈ acc ∨ x ∈ matchKeys directed head tail l := by
  intro l
  induction l with
  | nil => intro acc x hx; simp [collectNEdges] at hx; exact Or.inl hx
  | cons p rest ih =>
    intro acc x hx
    obtain ⟨i, e⟩ := p
    by_cases hm : ((e.head == head && e.tail == tail)
        || (directed && e.head == tail && e.tail == head)) = true
    · rw [collectNEdges_cons_of_match hm] at hx
      rw [matchKeys_cons_of_match hm]
      split at hx
      · rcases List.mem_append.mp hx with h1 | h1
        · exact Or.inl h1
        · simp at h1
          exact Or.inr (by simp [h1])
      · rcases ih _ _ hx with h1 | h1
        · rcases List.mem_append.mp h1 with h2 | h2
          · exact Or.inl h2
          · simp at h2
            exact Or.inr (by simp [h2])
        · exact Or.inr (List.mem_cons_of_mem _ h1)
    · rw [Bool.not_eq_true] at hm
      rw [collectNEdges_cons_of_not_match hm] at hx
      rw [matchKeys_cons_of_not_match hm]
      split at hx
      · exact Or.inl hx
      · exact ih _ _ hx

lemma collectNEdges_nodup (directed : Bool) (n head tail : Nat) :
    ∀ (l : List (Nat × Edge E)) (acc : List Nat),
      (l.map Prod.fst ++ acc).Nodup →
      (collectNEdges directed n head tail l acc).Nodup := by
  intro l
  induction l with
  | nil =>
    intro acc hnd
    simpa [collectNEdges] using hnd
  | cons p rest ih =>
    intro acc hnd
    obtain ⟨i, e⟩ := p
    simp only [List.map_cons, List.cons_append, List.nodup_cons, List.mem_append] at hnd
    have hirest : i ∉ rest.map Prod.fst := fun h => hnd.1 (Or.inl h)
    have hiacc : i ∉ acc := fun h => hnd.1 (Or.inr h)
    have hnd2 : (rest.map Prod.fst ++ acc).Nodup := hnd.2
    have hacc1 : (rest.map Prod.fst ++ (acc ++ [i])).Nodup := by
      rw [List.nodup_append] at hnd2 ⊢
      refine ⟨hnd2.1, ?_, ?_⟩
      · simp [List.nodup_append, hnd2.2.1, hiacc]
      · intro a ha hb
        simp [List.mem_append] at hb
        rcases hb with hb | hb
        · exact hnd2.2.2 ha hb
        · subst hb
          exact hirest ha
    have haccnd : acc.Nodup := (List.nodup_append.mp hnd2).2.1
    have hacci : (acc ++ [i]).Nodup := by
      simp [List.nodup_append, haccnd, hiacc]
    by_cases hm : ((e.head == head && e.tail == tail)
        || (directed && e.head == tail && e.tail == head)) = true
    · rw [collectNEdges_cons_of_match hm]
      split
      · exact hacci
      · exact ih _ hacc1
    · rw [Bool.not_eq_true] at hm
      rw [collectNEdges_cons_of_not_match hm]
      split
      · exact haccnd
      · exact ih _ hnd2

lemma collectNEdges_len (directed : Bool) (n head tail : Nat) :
    ∀ (l : List (Nat × Edge E)) (acc : List Nat),
      acc.length < n →
      (collectNEdges directed n head tail l acc).length ≤ n := by
  intro l
  induction l with
  | nil =>
    intro acc hlt
    rw [collectNEdges]
    omega
  | cons p rest ih =>
    intro acc hlt
    obtain ⟨i, e⟩ := p
    by_cases hm : ((e.head == head && e.tail == tail)
        || (directed && e.head == tail && e.tail == head)) = true
    · rw [collectNEdges_cons_of_match hm]
      by_cases hbr : n ≠ 0 ∧ (acc ++ [i]).length = n
      · rw [if_pos hbr]
        omega
      · rw [if_neg hbr]
        refine ih _ ?_
        simp only [List.length_append, List.length_cons, List.length_nil] at hbr ⊢
        omega
    · rw [Bool.not_eq_true] at hm
      rw [collectNEdges_cons_of_not_match hm]
      rw [if_neg (by omega)]
      exact ih _ hlt

lemma insertionSort_nat_strict {l : List Nat} (hnd : l.Nodup) :
    List.Sorted (· < ·) (List.insertionSort (· ≤ ·) l) := by
  have hs : List.Sorted (· ≤ ·) (List.insertionSort (· ≤ ·) l) :=
    List.sorted_insertionSort (· ≤ ·) l
  have hnd2 : (List.insertionSort (· ≤ ·) l).Nodup :=
    (List.perm_insertionSort (· ≤ ·) l).symm.nodup hnd
  exact (List.Pairwise.and hs hnd2).imp fun h => lt_of_le_of_ne h.1 h.2

/-- The store invariant of `FreeMap` maintained by `insert` and `remove`
alone: the live keys and the recorded free handles together are exactly
the handles `0, …, live + free − 1`, without duplicates. -/
def FreeMap.wf (fm : FreeMap Data) : Prop :=
  (fm.map.map Prod.fst ++ fm.free).Perm (List.range (fm.map.length + fm.free.length))

lemma mapLookup_eq_none {k : Nat} {m : List (Nat × Data)} :
    mapLookup k m = none ↔ k ∉ m.map Prod.fst := by
  induction m with
  | nil => simp [mapLookup]
  | cons p rest ih =>
    obtain ⟨k1, d1⟩ := p
    by_cases hk : k1 = k
    · subst hk
      simp [mapLookup]
    · simp [mapLookup, hk, ih, Ne.symm hk]

lemma mapInsert_keys_absent {k : Nat} (d : Data) {m : List (Nat × Data)}
    (hk : k ∉ m.map Prod.fst) :
    (mapInsert k d m).map Prod.fst = m.map Prod.fst ++ [k] := by
  induction m with
  | nil => simp [mapInsert]
  | cons p rest ih =>
    obtain ⟨k1, d1⟩ := p
    simp only [List.map_cons, List.mem_cons, not_or] at hk
    simp [mapInsert, Ne.symm hk.1, ih hk.2]

end GraphDS

namespace Dijkstra

lemma setRemove_self (x : VetInSet) (ys : List VetInSet) :
    setRemove x (x :: ys) = (ys, true) := by
  simp [setRemove, vetCmp, natCompare]

lemma relaxEdges_pres_source {source udist : Nat} :
    ∀ (es : List Edge) (dist : List (Option Nat)) (set : List VetInSet)
      (dist1 : List (Option Nat)) (set1 : List VetInSet),
      dist[source]? = some (some 0) →
      relaxEdges udist es dist set = some (dist1, set1) →
      dist1[source]? = some (some 0) := by
  intro es
  induction es with
  | nil =>
    intro dist set dist1 set1 hP hrel
    simp [relaxEdges] at hrel
    rw [← hrel.1]
    exact hP
  | cons e rest ih =>
    intro dist set dist1 set1 hP hrel
    rw [relaxEdges] at hrel
    split at hrel
    · exact absurd hrel (by simp)
    · rename_i hv
      have hds : e.dst ≠ source := by
        intro he
        rw [he, hP] at hv
        exact absurd hv (by simp)
      refine ih _ _ _ _ ?_ hrel
      rw [List.getElem?_set_ne hds]
      exact hP
    · rename_i vdist hv
      split at hrel
      · rename_i halt
        have hds : e.dst ≠ source := by
          intro he
          rw [he, hP] at hv
          have : vdist = 0 := by simpa using hv.symm
          omega
        split at hrel
        · exact absurd hrel (by simp)
        · refine ih _ _ _ _ ?_ hrel
          rw [List.getElem?_set_ne hds]
          exact hP
      · exact ih _ _ _ _ hP hrel

lemma ssspLoop_pres_source {source : Nat} (graph : Graph) :
    ∀ (fuel : Nat) (dist : List (Option Nat)) (set : List VetInSet)
      (dist1 : List (Option Nat)),
      dist[source]? = some (some 0) →
      ssspLoop graph fuel dist set = SsspResult.done dist1 →
      dist1[source]? = some (some 0) := by
  intro fuel
  induction fuel with
  | zero =>
    intro dist set dist1 hP hloop
    exact absurd hloop (by simp [ssspLoop])
  | succ fuel ih =>
    intro dist set dist1 hP hloop
    cases set with
    | nil =>
      rw [ssspLoop] at hloop
      simp at hloop
      rw [← hloop]
      exact hP
    | cons min rest =>
      rw [ssspLoop, setRemove_self] at hloop
      split at hloop
      · exact absurd hloop (by simp)
      · split at hloop
        · exact absurd hloop (by simp)
        · split at hloop
          · exact absurd hloop (by simp)
          · rename_i hrel
            exact ih _ _ _ (relaxEdges_pres_source _ _ _ _ _ hP hrel) hloop

lemma traitRelax_eq_relax (udist : Nat) :
    ∀ (es : List Edge) (dist : List (Option Nat)) (set : List VetInSet),
      traitRelax listAdjOps udist es dist set = relaxEdges udist es dist set := by
  intro es
  induction es with
  | nil => intro dist set; rfl
  | cons e rest ih =>
    intro dist set
    simp only [traitRelax, relaxEdges, listAdjOps]
    cases hv : dist[e.dst]? with
    | none => rfl
    | some ov =>
      cases ov with
      | none => exact ih _ _
      | some vdist =>
        by_cases halt : udist + e.weight < vdist
        · simp only [if_pos halt]
          cases hrem : setRemove ⟨vdist, e.dst⟩ set with
          | mk s2 ok =>
            cases ok with
            | false => rfl
            | true => exact ih _ _
        · simp only [if_neg halt]
          exact ih _ _

lemma listAdjOps_adjacencies (g : Graph) (u : Nat) :
    listAdjOps.adjacencies g u = g[u]? := rfl

lemma traitLoop_eq_ssspLoop (graph : Graph) :
    ∀ (fuel : Nat) (dist : List (Option Nat)) (set : List VetInSet),
      traitLoop listAdjOps graph fuel dist set = ssspLoop graph fuel dist set := by
  intro fuel
  induction fuel with
  | zero => intro dist set; rfl
  | succ fuel ih =>
    intro dist set
    cases set with
    | nil => rfl
    | cons min rest =>
      rw [traitLoop, ssspLoop, setRemove_self]
      simp only [listAdjOps_adjacencies, traitRelax_eq_relax, ih]
      cases graph[min.vet]? with
      | none => rfl
      | some adj =>
        cases relaxEdges min.dist adj dist rest with
        | none => rfl
        | some p => cases p; rfl

lemma ssspTrait_eq_sssp (fuel : Nat) (graph : Graph) (source : Nat) :
    ssspTrait listAdjOps fuel graph source = sssp fuel graph source := by
  rw [ssspTrait, sssp]
  by_cases hs : source < graph.length
  · simp only [listAdjOps, if_pos hs]
    exact traitLoop_eq_ssspLoop graph fuel _ _
  · simp only [listAdjOps, if_neg hs]

lemma relaxG_eq_traitRelax (ops : AdjacencyOps G E) (udist : Nat) :
    ∀ (es : List E) (dist : List (Option Nat)) (set : List VetInSet),
      Graphs.relaxG ops udist es dist set = traitRelax ops udist es dist set := by
  intro es
  induction es with
  | nil => intro dist set; rfl
  | cons e rest ih =>
    intro dist set
    simp only [Graphs.relaxG, traitRelax]
    cases hv : dist[ops.target e]? with
    | none => rfl
    | some ov =>
      cases ov with
      | none => exact ih _ _
      | some vdist =>
        by_cases halt : udist + ops.weight e < vdist
        · simp only [if_pos halt]
          cases hrem : setRemove ⟨vdist, ops.target e⟩ set with
          | mk s2 ok =>
            cases ok with
            | false => rfl
            | true => exact ih _ _
        · simp only [if_neg halt]
          exact ih _ _

lemma loopG_eq_traitLoop (ops : AdjacencyOps G E) (graph : G) :
    ∀ (fuel : Nat) (dist : List (Option Nat)) (set : List VetInSet),
      Graphs.loopG ops graph fuel dist set = traitLoop ops graph fuel dist set := by
  intro fuel
  induction fuel with
  | zero => intro dist set; rfl
  | succ fuel ih =>
    intro dist set
    cases set with
    | nil => rfl
    | cons min rest =>
      rw [Graphs.loopG, traitLoop, setRemove_self]
      simp only [relaxG_eq_traitRelax, ih]

lemma graphsSssp_eq_ssspTrait (ops : AdjacencyOps G E) (fuel : Nat) (graph : G)
    (source : Nat) :
    Graphs.sssp ops fuel graph source = ssspTrait ops fuel graph source := by
  rw [Graphs.sssp, ssspTrait]
  by_cases hs : source < ops.node_count graph
  · simp only [if_pos hs]
    exact loopG_eq_traitLoop ops graph fuel _ _
  · simp only [if_neg hs]

end Dijkstra

/-- Claim C1: false of the code — the frontier's ordering key is the
distance alone, never the pair (distance, node handle).  `VetInSet::cmp`
maps the two distinct frontier entries (5, node 1) and (5, node 2) to
`Equal`, so the `BTreeSet` frontier coalesces them; on `tieGraph`, whose
predecessor 0 has equal-weight edges into siblings 1 and 2 (and 3 and 4),
the engine run from 0 reports distance 5 for sibling 2 even though the
path 0→4→2 has cost 3 — node 4's frontier entry was silently dropped. -/
theorem Dijkstra.tie_break_missing_drops_sibling :
    Dijkstra.vetCmp ⟨5, 1⟩ ⟨5, 2⟩ = Ordering.eq ∧
    Dijkstra.sssp 10 Dijkstra.tieGraph 0 =
      Dijkstra.SsspResult.done [some 0, some 5, some 5, some 1, some 1] ∧
    Dijkstra.HasPathOfCost Dijkstra.tieGraph 0 2 3 ∧ (3 : Nat) < 5 := by
  refine ⟨by decide, by decide, ?_, by decide⟩
  have h1 : Dijkstra.HasPathOfCost Dijkstra.tieGraph 4 2 (2 + 0) :=
    .cons ⟨2, 2⟩ (by decide) (.nil 2)
  have h0 : Dijkstra.HasPathOfCost Dijkstra.tieGraph 0 2 (1 + (2 + 0)) :=
    .cons ⟨1, 4⟩ (by decide) h1
  simpa using h0

/-- Claim C2: false of the code — after `remove_node`'s cascading edge
deletion (which bypasses the edge store's free set), a handle assigned by
`insert` collides with a live handle.  In `cascaded1` the edge store
holds live handles 1 and 2 with edge 2 carrying weight 5; the next
`add_edge` is assigned handle 2, overwriting that live edge: afterwards
handle 2 carries the new weight 7 and the edge count is still 2. -/
theorem GraphDS.cascade_insert_collides_with_live_handle :
    GraphDS.cascaded1.edges.contains_key 2 = true ∧
    GraphDS.cascaded1.edges.get 2 = some ⟨5, 1, 1⟩ ∧
    (GraphDS.cascaded1.add_edge 7 1 1).2 = some 2 ∧
    (GraphDS.cascaded1.add_edge 7 1 1).1.edges.get 2 = some ⟨7, 1, 1⟩ ∧
    (GraphDS.cascaded1.add_edge 7 1 1).1.edge_count = GraphDS.cascaded1.edge_count := by
  refine ⟨by decide, by decide, by decide, by decide, by decide⟩

/-- Claim C3: false of the code — the direction test of `find_n_edges` is
inverted.  With edges 0 ↦ (0→1) and 1 ↦ (1→0), the directed container
returns both handles for the query (0, 1) (the claim demands exactly the
direct match [0]), while the undirected container returns only [0] (the
claim demands [0, 1], the reversed pair included). -/
theorem GraphDS.find_edges_direction_inverted :
    GraphDS.directedPair.is_directed = true ∧
    GraphDS.directedPair.find_edges 0 1 = [0, 1] ∧
    GraphDS.undirectedPair.is_directed = false ∧
    GraphDS.undirectedPair.find_edges 0 1 = [0] := by
  refine ⟨by decide, by decide, by decide, by decide⟩

/-- Claim C4: on the six-node example graph with edges 0→1(2), 0→2(1),
2→1(3), 2→3(20), 1→3(8), 3→4(3), the engine invoked with source 0
terminates with the distance table [0, 2, 1, 10, 13, unreached]. -/
theorem Dijkstra.sssp_example_distances :
    Dijkstra.sssp 10 Dijkstra.exampleGraph 0 =
      Dijkstra.SsspResult.done [some 0, some 2, some 1, some 10, some 13, none] := by
  decide

/-- Claim C5, counterexample: in `parallel4` the full match list for
(0, 1) is [0, 1, 2, 3] but `find_n_edges 2` scans the map in iteration
order 1, 2, 0 and stops after two matches, returning [1, 2] — not the
first two elements [0, 1] of `find_edges`. -/
theorem GraphDS.find_n_edges_not_a_prefix :
    GraphDS.parallel4.find_edges 0 1 = [0, 1, 2] ∧
    GraphDS.parallel4.find_n_edges 2 0 1 = [1, 2] ∧
    (GraphDS.parallel4.find_edges 0 1).take 2 = [0, 1] := by
  refine ⟨by decide, by decide, by decide⟩

/-- Claim C6, counterexample: in `cascadedSmall` the edge store's handle 0
is currently free (not live) and handle 1 is live, yet `insert` — reached
through `add_edge` — assigns handle 1, not the smallest currently-free
handle 0: the cascading deletion had bypassed the free set, so the
free-set-empty path assigns `map.len()` regardless of what is free. -/
theorem GraphDS.insert_not_smallest_free :
    GraphDS.cascadedSmall.edges.contains_key 0 = false ∧
    GraphDS.cascadedSmall.edges.contains_key 1 = true ∧
    GraphDS.cascadedSmall.edges.free = [] ∧
    (GraphDS.cascadedSmall.add_edge 9 1 1).2 = some 1 := by
  refine ⟨by decide, by decide, by decide, by decide⟩

/-- Claim C5, amended: `find_n_edges n` returns a strictly ascending
sequence of at most `n` matching edge handles (for `n = 0`, of all of
them — `find_edges`), each of which appears in `find_edges`; which `n`
handles are returned depends on the map's unspecified iteration order,
so the result need not be the first `n` elements of `find_edges`. -/
theorem GraphDS.find_n_edges_sorted_matches {N E : Type} (g : GraphDS.Graph N E)
    (n head tail : Nat) (hn : (g.edges.map.map Prod.fst).Nodup) :
    List.Sorted (· < ·) (g.find_n_edges n head tail) ∧
    (∀ x ∈ g.find_n_edges n head tail, x ∈ g.find_edges head tail) ∧
    (n ≠ 0 → (g.find_n_edges n head tail).length ≤ n) := by
  refine ⟨?_, ?_, ?_⟩
  · refine GraphDS.insertionSort_nat_strict
      (GraphDS.collectNEdges_nodup g.directed n head tail _ [] ?_)
    simpa using hn
  · intro x hx
    have hx2 : x ∈ GraphDS.collectNEdges g.directed n head tail g.edges.map [] :=
      (List.perm_insertionSort (· ≤ ·) _).mem_iff.mp hx
    have hx3 : x ∈ GraphDS.matchKeys g.directed head tail g.edges.map := by
      rcases GraphDS.collectNEdges_mem g.directed n head tail _ _ _ hx2 with h | h
      · simp at h
      · exact h
    show x ∈ List.insertionSort (· ≤ ·)
      (GraphDS.collectNEdges g.directed 0 head tail g.edges.map [])
    rw [GraphDS.collectNEdges_zero]
    exact (List.perm_insertionSort (· ≤ ·) _).mem_iff.mpr (by simpa using hx3)
  · intro hnz
    have hlen := GraphDS.collectNEdges_len g.directed n head tail g.edges.map []
      (by simpa using Nat.pos_of_ne_zero hnz)
    calc (g.find_n_edges n head tail).length
        = (GraphDS.collectNEdges g.directed n head tail g.edges.map []).length :=
          (List.perm_insertionSort (· ≤ ·) _).length_eq
      _ ≤ n := hlen

/-- Claim C5, witness: on `parallel4` (edge keys without duplicates) the
bounded query is ascending, within its bound, and a subset of the full
query. -/
theorem GraphDS.find_n_edges_sorted_matches_witness :
    List.Sorted (· < ·) (GraphDS.parallel4.find_n_edges 2 0 1) ∧
    (GraphDS.parallel4.find_n_edges 2 0 1).length ≤ 2 ∧
    (1 : Nat) ∈ GraphDS.parallel4.find_edges 0 1 := by
  have T := GraphDS.find_n_edges_sorted_matches GraphDS.parallel4 2 0 1 (by decide)
  exact ⟨T.1, T.2.2 (by decide), T.2.1 1 (by decide)⟩

/-- Claim C6, amended: `insert` assigns the handle yielded first by the
free set's iteration when the free set is nonempty, else `map.len()`; in
a store whose live handles and recorded free handles form a
duplicate-free initial segment of ℕ (the invariant of stores operated on
by `insert`/`remove` alone), the assigned handle is never live — no
collision — and the invariant is preserved; no "smallest free handle"
choice is guaranteed. -/
theorem GraphDS.freemap_insert_fresh {Data : Type} (fm : GraphDS.FreeMap Data)
    (d : Data) (hwf : fm.wf) :
    fm.contains_key (fm.insert d).2 = false ∧ ((fm.insert d).1).wf := by
  have hincl := hwf
  unfold GraphDS.FreeMap.wf at hincl
  cases hf : fm.free with
  | nil =>
    rw [hf] at hincl
    simp only [List.append_nil, List.length_nil, Nat.add_zero] at hincl
    have habs : fm.map.length ∉ fm.map.map Prod.fst := by
      intro hmem
      have := hincl.mem_iff.mp hmem
      simp at this
    constructor
    · simp only [GraphDS.FreeMap.contains_key, GraphDS.FreeMap.insert, hf]
      rw [GraphDS.mapLookup_eq_none.mpr habs]
      rfl
    · unfold GraphDS.FreeMap.wf
      simp only [GraphDS.FreeMap.insert, hf]
      rw [GraphDS.mapInsert_keys_absent d habs]
      have hlen : (GraphDS.mapInsert fm.map.length d fm.map).length = fm.map.length + 1 := by
        have := congrArg List.length (GraphDS.mapInsert_keys_absent d habs)
        simpa using this
      rw [hlen]
      simp only [List.length_nil, Nat.add_zero, List.append_nil, List.range_succ]
      exact hincl.append (List.Perm.refl [fm.map.length])
  | cons f rest =>
    have hnodup : (fm.map.map Prod.fst ++ fm.free).Nodup :=
      hwf.symm.nodup (List.nodup_range _)
    have hfmem : f ∈ fm.free := by rw [hf]; exact List.mem_cons_self f rest
    have habs : f ∉ fm.map.map Prod.fst := by
      rw [List.nodup_append] at hnodup
      intro hmem
      exact hnodup.2.2 hmem hfmem
    constructor
    · simp only [GraphDS.FreeMap.contains_key, GraphDS.FreeMap.insert, hf]
      rw [GraphDS.mapLookup_eq_none.mpr habs]
      rfl
    · unfold GraphDS.FreeMap.wf
      simp only [GraphDS.FreeMap.insert, hf]
      rw [GraphDS.mapInsert_keys_absent d habs]
      have hlen : (GraphDS.mapInsert f d fm.map).length = fm.map.length + 1 := by
        have := congrArg List.length (GraphDS.mapInsert_keys_absent d habs)
        simpa using this
      rw [hlen]
      have harr : fm.map.length + 1 + rest.length = fm.map.length + fm.free.length := by
        rw [hf]; simp; omega
      rw [harr]
      have heq : fm.map.map Prod.fst ++ [f] ++ rest = fm.map.map Prod.fst ++ fm.free := by
        rw [hf, List.append_assoc]
        rfl
      rw [heq]
      exact hwf

/-- Claim C6, witness: the store with live handle 0 and free handle 1
satisfies the invariant; `insert` assigns the free handle 1, which was
not live, and preserves the invariant. -/
theorem GraphDS.freemap_insert_fresh_witness :
    (GraphDS.FreeMap.contains_key ⟨[(0, 5)], [1]⟩
      ((GraphDS.FreeMap.insert (⟨[(0, 5)], [1]⟩ : GraphDS.FreeMap Nat) 7).2)) = false ∧
    ((GraphDS.FreeMap.insert (⟨[(0, 5)], [1]⟩ : GraphDS.FreeMap Nat) 7).1).wf :=
  GraphDS.freemap_insert_fresh ⟨[(0, 5)], [1]⟩ 7 (List.Perm.refl _)

/-- Claim C7: `add_edge` returns the invalid result (`none`) exactly when
`head` or `tail` is not a live node handle; in that case the container is
unchanged, and otherwise the returned handle holds the new edge
(self-loops included: nothing restricts `head = tail`). -/
theorem GraphDS.add_edge_invalid_iff {N E : Type} (g : GraphDS.Graph N E) (w : E)
    (h t : Nat) :
    ((g.add_edge w h t).2 = none ↔
      (g.nodes.contains_key h = false ∨ g.nodes.contains_key t = false)) ∧
    ((g.add_edge w h t).2 = none → (g.add_edge w h t).1 = g) ∧
    (∀ i, (g.add_edge w h t).2 = some i →
      (g.add_edge w h t).1.edges.get i = some ⟨w, h, t⟩) := by
  by_cases hc : (!(g.nodes.contains_key h) || !(g.nodes.contains_key t)) = true
  · have hdis : g.nodes.contains_key h = false ∨ g.nodes.contains_key t = false := by
      simpa using hc
    refine ⟨?_, ?_, ?_⟩
    · simp [GraphDS.Graph.add_edge, hc, hdis]
    · intro _
      simp [GraphDS.Graph.add_edge, hc]
    · intro i hi
      simp [GraphDS.Graph.add_edge, hc] at hi
  · have hc2 : ¬ (g.nodes.contains_key h = false ∨ g.nodes.contains_key t = false) := by
      simpa using hc
    refine ⟨?_, ?_, ?_⟩
    · simp [GraphDS.Graph.add_edge, hc, hc2]
    · intro hnone
      simp [GraphDS.Graph.add_edge, hc] at hnone
    · intro i hi
      simp [GraphDS.Graph.add_edge, hc] at hi ⊢
      subst hi
      simp [GraphDS.FreeMap.get, GraphDS.freeMap_insert_map, GraphDS.mapLookup_insert_self]

/-- Claim C7, witness: on the two-node container, `add_edge` to the dead
handle 5 fails with `none` and leaves the container unchanged, while
`add_edge` between the live handles 0 and 1 stores the edge at the
returned handle 0. -/
theorem GraphDS.add_edge_invalid_iff_witness :
    (GraphDS.twoNodes.add_edge 1 0 5).2 = none ∧
    (GraphDS.twoNodes.add_edge 1 0 5).1 = GraphDS.twoNodes ∧
    (GraphDS.twoNodes.add_edge 1 0 1).1.edges.get 0 = some ⟨1, 0, 1⟩ := by
  have t1 := GraphDS.add_edge_invalid_iff GraphDS.twoNodes 1 0 5
  have t2 := GraphDS.add_edge_invalid_iff GraphDS.twoNodes 1 0 1
  have hnone : (GraphDS.twoNodes.add_edge 1 0 5).2 = none :=
    t1.1.mpr (Or.inr (by decide))
  exact ⟨hnone, t1.2.1 hnone, t2.2.2 0 (by decide)⟩

/-- Claim C8: `remove_node` on a live handle removes, by cascading
deletion, every edge whose head or tail equals that handle — no surviving
edge references it — and returns the removed node's former weight. -/
theorem GraphDS.remove_node_cascades {N E : Type} (g : GraphDS.Graph N E) (h : Nat)
    (hl : g.nodes.contains_key h = true) :
    (∀ i e, (g.remove_node h).1.edges.get i = some e → e.head ≠ h ∧ e.tail ≠ h) ∧
    (∃ nd, g.nodes.get h = some nd ∧ (g.remove_node h).2 = some nd.weight) := by
  obtain ⟨nd, hnd⟩ : ∃ nd, GraphDS.mapLookup h g.nodes.map = some nd := by
    simpa [GraphDS.FreeMap.contains_key, Option.isSome_iff_exists] using hl
  refine ⟨?_, ⟨nd, by simpa [GraphDS.FreeMap.get] using hnd, ?_⟩⟩
  · intro i e hm
    simp [GraphDS.Graph.remove_node, GraphDS.FreeMap.remove, hnd, GraphDS.FreeMap.get] at hm
    have hmem := List.mem_filter.mp (GraphDS.mapLookup_mem hm)
    have hp := hmem.2
    simp [bne] at hp
    exact ⟨hp.1, hp.2⟩
  · simp [GraphDS.Graph.remove_node, GraphDS.FreeMap.remove, hnd]

/-- Claim C8, witness: removing live node 0 from `cascade3` returns its
weight 0 (the existential conjunct applied at node handle 0). -/
theorem GraphDS.remove_node_cascades_witness :
    GraphDS.cascade3.nodes.contains_key 0 = true ∧
    (GraphDS.cascade3.remove_node 0).2 = some 0 := by
  refine ⟨by decide, ?_⟩
  obtain ⟨nd, h1, h2⟩ := (GraphDS.remove_node_cascades GraphDS.cascade3 0 (by decide)).2
  have hget : GraphDS.cascade3.nodes.get 0 = some ⟨0⟩ := by decide
  rw [hget] at h1
  have hnd : nd = ⟨0⟩ := (Option.some_inj.mp h1).symm
  subst hnd
  exact h2

/-- Claim C9: whenever the engine terminates normally (`done`), the
returned table records the source's distance as the additive identity
`0`; and on the single-node edgeless graph the source is the only entry
of the table, reached with distance `0`. -/
theorem Dijkstra.sssp_source_identity :
    (∀ (g : Dijkstra.Graph) (fuel source : Nat) (dist : List (Option Nat)),
      Dijkstra.sssp fuel g source = Dijkstra.SsspResult.done dist →
      dist[source]? = some (some 0)) ∧
    Dijkstra.sssp 2 [[]] 0 = Dijkstra.SsspResult.done [some 0] := by
  refine ⟨?_, by decide⟩
  intro g fuel source dist hdone
  rw [Dijkstra.sssp] at hdone
  by_cases hs : source < g.length
  · rw [if_pos hs] at hdone
    refine Dijkstra.ssspLoop_pres_source g fuel _ _ dist ?_ hdone
    rw [List.getElem?_set_self (by simpa using hs)]
  · rw [if_neg hs] at hdone
    exact absurd hdone (by simp)

/-- Claim C9, witness: the universal part applied to the single-node
edgeless graph, whose run terminates normally with table `[some 0]`. -/
theorem Dijkstra.sssp_source_identity_witness :
    ([some 0] : List (Option Nat))[0]? = some (some 0) :=
  Dijkstra.sssp_source_identity.1 [[]] 2 0 [some 0] (by decide)

/-- Claim C10: for every adjacency-list graph and in-range source, the
concrete `sssp`, the capability-based `sssp_trait`, and the graphs
module's `sssp` (instantiated at the adjacency-list capability) return
identical results. -/
theorem Dijkstra.sssp_refines_trait (g : Dijkstra.Graph) (fuel source : Nat)
    (_hs : source < Dijkstra.listAdjOps.node_count g) :
    Dijkstra.sssp fuel g source = Dijkstra.ssspTrait Dijkstra.listAdjOps fuel g source ∧
    Dijkstra.ssspTrait Dijkstra.listAdjOps fuel g source =
      Graphs.sssp Dijkstra.listAdjOps fuel g source :=
  ⟨(Dijkstra.ssspTrait_eq_sssp fuel g source).symm,
    (Dijkstra.graphsSssp_eq_ssspTrait Dijkstra.listAdjOps fuel g source).symm⟩

/-- Claim C10, witness: the three implementations agree on the six-node
example graph from source 0. -/
theorem Dijkstra.sssp_refines_trait_witness :
    0 < Dijkstra.listAdjOps.node_count Dijkstra.exampleGraph ∧
    Dijkstra.sssp 10 Dijkstra.exampleGraph 0 =
      Dijkstra.ssspTrait Dijkstra.listAdjOps 10 Dijkstra.exampleGraph 0 ∧
    Dijkstra.ssspTrait Dijkstra.listAdjOps 10 Dijkstra.exampleGraph 0 =
      Graphs.sssp Dijkstra.listAdjOps 10 Dijkstra.exampleGraph 0 := by
  refine ⟨by decide, ?_, ?_⟩
  · exact (Dijkstra.sssp_refines_trait Dijkstra.exampleGraph 10 0 (by decide)).1
  · exact (Dijkstra.sssp_refines_trait Dijkstra.exampleGraph 10 0 (by decide)).2
